import Mathlib

/-!
Verification of the error-table generator `src/best/io/errnos.py`.

The script is embedded shallowly:

* the result of the `subprocess.run` call is an explicit input
  (`RunOutcome`): either the executable is missing (Python raises
  `FileNotFoundError`) or the process completed with a return code and a
  captured standard output — the script passes no `check=True`, so the
  return code is available but unused by the code;
* `str.splitlines` and `str.split(" ", 2)` are embedded as character-list
  functions (`splitOnChar`, `split2`); `splitlines` is embedded for
  newline-delimited text, the only shape the external tool produces;
* `int(...)` is embedded for ASCII text (`pyInt`): optional surrounding
  whitespace, optional sign, digits with single underscores between digits;
* `str.title` is embedded for ASCII text (`pyTitle`): a letter is
  uppercased when the previous character is not a letter and lowercased
  otherwise;
* `print` calls are collected into a list of output lines; an uncaught
  exception is an `Except.error`, which is how Python terminates with a
  non-zero exit status; a normal return is `Except.ok` with the emitted
  lines and exit status 0.
-/

/-- One parsed errno entry: the tuple `(int(num), name, message)` built by
the parse loop of `main`. -/
structure Entry where
  num : Int
  name : String
  message : String
deriving DecidableEq

/-- The uncaught Python exceptions `main` can die with. -/
inductive PyErr where
  /-- `FileNotFoundError` from `subprocess.run` when the executable is absent. -/
  | fileNotFound
  /-- `IndexError` from `sys.argv[1]`. -/
  | indexError
  /-- `ValueError` from tuple unpacking or from `int(...)`. -/
  | valueError
deriving DecidableEq

/-- The observable result of the `subprocess.run(["errno", "-l"], ...)` call. -/
inductive RunOutcome where
  /-- The executable is missing: the call raises `FileNotFoundError`. -/
  | missing
  /-- The process ran to completion with the given return code and captured
  standard output.  The script sets no `check=True`, so a non-zero return
  code raises nothing. -/
  | completed (returncode : Int) (stdout : String)

/-- Split a character list at every occurrence of `sep`, keeping empty
pieces: the semantics of Python `str.split(sep)` with a one-character
separator.  Always returns at least one piece. -/
def splitOnChar (sep : Char) : List Char → List (List Char)
  | [] => [[]]
  | c :: cs =>
    if c = sep then [] :: splitOnChar sep cs
    else
      match splitOnChar sep cs with
      | p :: ps => (c :: p) :: ps
      | [] => [[c]]

/-- Python `line.split(" ", 2)`: split on the single space character
U+0020, at most twice, the remainder of the line staying in one piece. -/
def split2 (line : String) : List String :=
  match splitOnChar ' ' line.data with
  | a :: b :: c :: rest => [⟨a⟩, ⟨b⟩, ⟨List.intercalate [' '] (c :: rest)⟩]
  | ps => ps.map (fun p => ⟨p⟩)

/-- Python `raw.splitlines()` for newline-delimited text: split on the
newline character, a trailing newline producing no extra empty line, and
the empty string producing no lines at all. -/
def pySplitlines (s : String) : List String :=
  let ps := splitOnChar '\n' s.data
  (if ps.getLast? = some [] then ps.dropLast else ps).map (fun p => ⟨p⟩)

/-- The ASCII whitespace characters stripped by Python `int(...)`. -/
def isPyWs (c : Char) : Bool :=
  c = ' ' || c = '\t' || c = '\n' || c = '\r' || c = '\x0b' || c = '\x0c'

/-- Strip leading and trailing whitespace from a character list. -/
def stripWs (l : List Char) : List Char :=
  ((l.dropWhile isPyWs).reverse.dropWhile isPyWs).reverse

/-- Numeric value of an ASCII digit. -/
def digitVal (c : Char) : Nat := c.toNat - '0'.toNat

/-- Value of the digit tail of an integer literal: digits, with single
underscores allowed between digits, as Python `int` accepts. -/
def digitsVal : Nat → List Char → Option Nat
  | acc, [] => some acc
  | acc, '_' :: c :: cs =>
    if c.isDigit then digitsVal (acc * 10 + digitVal c) cs else none
  | acc, c :: cs =>
    if c.isDigit then digitsVal (acc * 10 + digitVal c) cs else none

/-- Python `int(s)` on ASCII text: strip whitespace, optional sign, then a
nonempty digit sequence.  `none` is a raised `ValueError`. -/
def pyInt (s : String) : Option Int :=
  match stripWs s.data with
  | '-' :: c :: cs =>
    if c.isDigit then (digitsVal (digitVal c) cs).map (fun n => -(n : Int)) else none
  | '+' :: c :: cs =>
    if c.isDigit then (digitsVal (digitVal c) cs).map (fun n => (n : Int)) else none
  | c :: cs =>
    if c.isDigit then (digitsVal (digitVal c) cs).map (fun n => (n : Int)) else none
  | [] => none

/-- One iteration of the parse loop of `main`:
`name, num, message = tuple(line.split(" ", 2))` followed by `int(num)`.
A failed unpacking (fewer than three pieces) and a failed conversion both
raise `ValueError`. -/
def parseLine (line : String) : Except PyErr Entry :=
  match split2 line with
  | [name, num, message] =>
    match pyInt num with
    | some k => Except.ok ⟨k, name, message⟩
    | none => Except.error PyErr.valueError
  | _ => Except.error PyErr.valueError

/-- The whole parse loop: lines are processed in order and the first
raised exception aborts the loop. -/
def parseAll : List String → Except PyErr (List Entry)
  | [] => Except.ok []
  | l :: ls =>
    match parseLine l with
    | Except.error e => Except.error e
    | Except.ok x =>
      match parseAll ls with
      | Except.error e => Except.error e
      | Except.ok xs => Except.ok (x :: xs)

/-- Insert an entry in front of the first element whose number is not
smaller.  Folding this from the right is a stable sort by `num`, the
behavior of Python `list.sort(key=lambda t: t[0])`. -/
def insertE (e : Entry) : List Entry → List Entry
  | [] => [e]
  | x :: xs => if e.num ≤ x.num then e :: x :: xs else x :: insertE e xs

/-- Stable sort by `num`: `errnos.sort(key=lambda t: t[0])`. -/
def sortE (l : List Entry) : List Entry := l.foldr insertE []

/-- The `parse` operation of the spec: split the raw text into lines,
parse each line, and sort the entries by number. -/
def parse (raw : String) : Except PyErr (List Entry) :=
  match parseAll (pySplitlines raw) with
  | Except.error e => Except.error e
  | Except.ok es => Except.ok (sortE es)

/-- Embedding of Python `str.title` on ASCII text: a letter is uppercased
when the previous character is not a letter, lowercased otherwise; other
characters pass through and reset the word boundary. -/
def pyTitleGo : Bool → List Char → List Char
  | _, [] => []
  | prevCased, c :: cs =>
    if c.isAlpha then
      (if prevCased then c.toLower else c.toUpper) :: pyTitleGo true cs
    else
      c :: pyTitleGo false cs

/-- Python `name.title()` on ASCII text. -/
def pyTitle (s : String) : String := ⟨pyTitleGo false s.data⟩

/-- One output line of `decls` mode. -/
def declLine (e : Entry) : String := "static const ioerr " ++ pyTitle e.name ++ ";"

/-- One output line of `defs` mode. -/
def defLine (e : Entry) : String :=
  "constexpr ioerr ioerr::" ++ pyTitle e.name ++ "(" ++ toString e.num ++ ");"

/-- Python `{:04}` formatting of a nonnegative integer: decimal digits
zero-padded on the left to at least four characters. -/
def pad4 (n : Nat) : String := ⟨List.replicate (4 - (toString n).length) '0'⟩ ++ toString n

/-- A placeholder table line for an unused slot. -/
def emptySlot (i : Nat) : String := "/*" ++ pad4 i ++ "*/ e\x7b\x7d,"

/-- A populated table line for an entry occupying slot `i`. -/
def fullSlot (i : Nat) (e : Entry) : String :=
  "/*" ++ pad4 i ++ "*/ e\x7b\"" ++ e.name ++ "\", \"" ++ e.message ++ "\"\x7d,"

/-- One pass of the table loop of `main`, starting from the running index
`next`: for each entry, emit empty slots while `next` is below the entry
number, then emit the entry itself at the current index and advance. -/
def tableLines : Nat → List Entry → List String
  | _, [] => []
  | next, e :: rest =>
    let g := (e.num - (next : Int)).toNat
    (List.range g).map (fun i => emptySlot (next + i))
      ++ fullSlot (next + g) e :: tableLines (next + g + 1) rest

/-- `sys.argv[1] if len(sys.argv) > 0 else None`: the guard compares
against 0, not 1, so the else branch is unreachable whenever `argv`
carries the program name, and a missing argument raises `IndexError`. -/
def argvWhich (argv : List String) : Except PyErr (Option String) :=
  if argv.length > 0 then
    match argv.get? 1 with
    | some a => Except.ok (some a)
    | none => Except.error PyErr.indexError
  else Except.ok none

/-- The whole of `main`: run the external tool, parse and sort its output,
read the mode argument, and emit the lines of the selected mode.  The
table branch appears twice in the source, so its lines are emitted twice. -/
def mainModel (outcome : RunOutcome) (argv : List String) : Except PyErr (List String) :=
  match outcome with
  | RunOutcome.missing => Except.error PyErr.fileNotFound
  | RunOutcome.completed _ stdout =>
    match parse stdout with
    | Except.error e => Except.error e
    | Except.ok entries =>
      match argvWhich argv with
      | Except.error e => Except.error e
      | Except.ok which =>
        if which = some "decls" then Except.ok (entries.map declLine)
        else if which = some "defs" then Except.ok (entries.map defLine)
        else Except.ok (tableLines 0 entries ++ tableLines 0 entries)

/-- The line the table ought to show for slot `i` of a given entry list:
the first entry numbered `i` if one exists, the placeholder otherwise. -/
def slotLine (es : List Entry) (i : Nat) : String :=
  match es.find? (fun e => e.num == (i : Int)) with
  | some e => fullSlot i e
  | none => emptySlot i

/-- A line the parse loop raises `ValueError` on: fewer than three pieces
under `split(" ", 2)`, or a second piece `int` rejects. -/
def malformedLine (line : String) : Bool :=
  match split2 line with
  | [_, num, _] => (pyInt num).isNone
  | _ => true

deriving instance DecidableEq for Except

/-- The two-line example input of the spec. -/
def exInput : String :=
  "EPERM 1 Operation not permitted\nENOENT 2 No such file or directory"

/-- The single pass of the table the example input produces. -/
def exTable : List String :=
  ["/*0000*/ e\x7b\x7d,",
   "/*0001*/ e\x7b\"EPERM\", \"Operation not permitted\"\x7d,",
   "/*0002*/ e\x7b\"ENOENT\", \"No such file or directory\"\x7d,"]

example : split2 "EPERM 1 Operation not permitted" = ["EPERM", "1", "Operation not permitted"] := by decide
example : pySplitlines "a\nb\n" = ["a", "b"] := by decide
example : pySplitlines "" = [] := by decide
example : pyInt "1" = some 1 := by decide
example : pyInt "" = none := by decide
example : pyInt "not" = none := by decide
example : pyTitle "EPERM" = "Eperm" := by decide
example : pad4 1 = "0001" := by decide
example : emptySlot 0 = "/*0000*/ e\x7b\x7d," := by decide
example : parseLine "EPERM 1 Operation not permitted" = Except.ok ⟨1, "EPERM", "Operation not permitted"⟩ := by decide
example : tableLines 0 [⟨1, "EPERM", "x"⟩] = [emptySlot 0, fullSlot 1 ⟨1, "EPERM", "x"⟩] := by decide
example : mainModel (RunOutcome.completed 0 "EPERM 1 x") ["errnos.py"] = Except.error PyErr.indexError := by decide
example : mainModel (RunOutcome.completed 0 "EPERM 1 x") ["errnos.py", "decls"] = Except.ok ["static const ioerr Eperm;"] := by decide

/-- C1: the claim says that with no command-line argument the gap-filled
table is printed twice, and that any argument other than `decls` or `defs`
falls through to the same table emission.  The fall-through half holds,
but with no argument the guard `len(sys.argv) > 0` is still true (argv
carries the program name), so `sys.argv[1]` raises `IndexError` and the
process aborts instead of printing the table. -/
theorem noArgRaisesIndexError :
    mainModel (RunOutcome.completed 0 exInput) ["errnos.py"]
      = Except.error PyErr.indexError
    ∧ mainModel (RunOutcome.completed 0 exInput) ["errnos.py", "bogus"]
      = Except.ok (exTable ++ exTable) := by
  constructor
  · decide
  · decide

/-- C3, counterexample: the `subprocess.run` call passes no `check=True`,
so when the external tool exits with status 1 its captured standard output
is processed anyway: the program emits output and exits 0 instead of
aborting. -/
theorem nonzeroToolExitIgnored :
    mainModel (RunOutcome.completed 1 "EPERM 1 Operation not permitted")
        ["errnos.py", "decls"]
      = Except.ok ["static const ioerr Eperm;"] := by
  decide

/-- C3, amended: a missing executable makes the subprocess invocation
raise `FileNotFoundError` and the process aborts with a non-zero status,
but the return code of a completed tool run is never inspected: the
program behaves identically whatever that code is. -/
theorem toolFailureAmended :
    (∀ argv : List String, mainModel RunOutcome.missing argv
        = Except.error PyErr.fileNotFound)
    ∧ (∀ (rc rcx : Int) (out : String) (argv : List String),
        mainModel (RunOutcome.completed rc out) argv
          = mainModel (RunOutcome.completed rcx out) argv) :=
  ⟨fun _ => rfl, fun _ _ _ _ => rfl⟩

/-- C8: both `decls` and `defs` mode build the identifier of an entry by
the same pure title-casing of the error name, and on the example input
they emit exactly the two declaration lines and the two definition lines
of the spec. -/
theorem titleCasingSharedAcrossModes :
    (∀ e : Entry,
        declLine e = "static const ioerr " ++ pyTitle e.name ++ ";"
        ∧ defLine e = "constexpr ioerr ioerr::" ++ pyTitle e.name
            ++ "(" ++ toString e.num ++ ");")
    ∧ mainModel (RunOutcome.completed 0 exInput) ["errnos.py", "decls"]
        = Except.ok ["static const ioerr Eperm;", "static const ioerr Enoent;"]
    ∧ mainModel (RunOutcome.completed 0 exInput) ["errnos.py", "defs"]
        = Except.ok ["constexpr ioerr ioerr::Eperm(1);", "constexpr ioerr ioerr::Enoent(2);"] :=
  ⟨fun _ => ⟨rfl, rfl⟩, by decide, by decide⟩

/-- C10: on empty tool output there are no lines, parsing trivially
succeeds with an empty entry list, and every supplied mode emits zero
lines — in particular the table mode emits no placeholder line for
index 0. -/
theorem emptyInputEmitsNothing (rc : Int) (m : String) :
    mainModel (RunOutcome.completed rc "") ["errnos.py", m] = Except.ok [] := by
  have hp : parse "" = Except.ok [] := rfl
  have ha : argvWhich ["errnos.py", m] = Except.ok (some m) := rfl
  by_cases h1 : m = "decls"
  · subst h1; rfl
  · by_cases h2 : m = "defs"
    · subst h2; rfl
    · simp only [mainModel, hp, ha]
      simp [h1, h2, tableLines]

/-- C5: whenever the mode argument selects the table branch, the emitted
lines are one full pass of the table followed immediately by a second,
identical pass. -/
theorem tableEmittedTwice (rc : Int) (out m : String) (es : List Entry)
    (hp : parse out = Except.ok es) (h1 : m ≠ "decls") (h2 : m ≠ "defs") :
    mainModel (RunOutcome.completed rc out) ["errnos.py", m]
      = Except.ok (tableLines 0 es ++ tableLines 0 es) := by
  have ha : argvWhich ["errnos.py", m] = Except.ok (some m) := rfl
  simp only [mainModel, hp, ha]
  simp [h1, h2]

/-- C5, witness at a concrete run. -/
theorem tableEmittedTwiceWitness :
    mainModel (RunOutcome.completed 0 "EPERM 1 x") ["errnos.py", "table"]
      = Except.ok (tableLines 0 [⟨1, "EPERM", "x"⟩] ++ tableLines 0 [⟨1, "EPERM", "x"⟩]) :=
  tableEmittedTwice 0 "EPERM 1 x" "table" [⟨1, "EPERM", "x"⟩]
    (by decide) (by decide) (by decide)

/-- Every exception the parse loop raises on a line is a `ValueError`. -/
theorem parseLine_error_eq {l : String} {e : PyErr}
    (h : parseLine l = Except.error e) : e = PyErr.valueError := by
  unfold parseLine at h
  split at h
  · split at h
    · exact absurd h (by simp)
    · exact (Except.error.inj h).symm
  · exact (Except.error.inj h).symm

/-- A malformed line makes the parse loop raise `ValueError` on it. -/
theorem malformed_parseLine {l : String} (h : malformedLine l = true) :
    parseLine l = Except.error PyErr.valueError := by
  unfold malformedLine at h
  unfold parseLine
  split at h
  next a num b heq => simp [Option.isNone_iff_eq_none.mp h]
  next => rfl

/-- If some line of the input is malformed, the whole parse loop raises
`ValueError`, whichever bad line comes first. -/
theorem parseAll_error_of_mem {ls : List String} {l : String}
    (hm : l ∈ ls) (hb : parseLine l = Except.error PyErr.valueError) :
    parseAll ls = Except.error PyErr.valueError := by
  induction ls with
  | nil => cases hm
  | cons x xs ih =>
    rcases List.mem_cons.mp hm with rfl | hm2
    · simp only [parseAll, hb]
    · simp only [parseAll]
      cases hx : parseLine x with
      | error e => rw [parseLine_error_eq hx]
      | ok v => rw [ih hm2]

/-- C4: an input containing a line the script cannot destructure — fewer
than three pieces under `split(" ", 2)`, or a second piece `int` rejects —
makes the whole run abort with `ValueError` (non-zero exit) whatever the
mode argument, before any output line is produced. -/
theorem malformedLineAborts (rc : Int) (raw : String) (argv : List String)
    (line : String) (hm : line ∈ pySplitlines raw)
    (hb : malformedLine line = true) :
    mainModel (RunOutcome.completed rc raw) argv = Except.error PyErr.valueError := by
  have h1 : parseAll (pySplitlines raw) = Except.error PyErr.valueError :=
    parseAll_error_of_mem hm (malformed_parseLine hb)
  simp only [mainModel, parse, h1]

/-- C4, witness: a one-field line aborts the run. -/
theorem malformedLineAbortsWitness :
    mainModel (RunOutcome.completed 0 "EPERM") ["errnos.py"]
      = Except.error PyErr.valueError :=
  malformedLineAborts 0 "EPERM" ["errnos.py"] "EPERM" (by decide) (by decide)

/-- Membership in an insertion. -/
theorem mem_insertE {y e : Entry} {l : List Entry} :
    y ∈ insertE e l ↔ y = e ∨ y ∈ l := by
  induction l with
  | nil => simp [insertE]
  | cons x xs ih =>
    unfold insertE
    by_cases h : e.num ≤ x.num
    · simp [h]
    · simp [h, ih]
      tauto

/-- Insertion preserves sortedness by `num`. -/
theorem insertE_pairwise {e : Entry} {l : List Entry}
    (h : List.Pairwise (fun a b => a.num ≤ b.num) l) :
    List.Pairwise (fun a b => a.num ≤ b.num) (insertE e l) := by
  induction l with
  | nil => simp [insertE]
  | cons x xs ih =>
    rcases List.pairwise_cons.mp h with ⟨hx, hxs⟩
    unfold insertE
    by_cases hc : e.num ≤ x.num
    · rw [if_pos hc]
      refine List.pairwise_cons.mpr ⟨?_, h⟩
      intro y hy
      rcases List.mem_cons.mp hy with rfl | hy2
      · exact hc
      · exact le_trans hc (hx y hy2)
    · rw [if_neg hc]
      refine List.pairwise_cons.mpr ⟨?_, ih hxs⟩
      intro y hy
      rcases mem_insertE.mp hy with rfl | hy2
      · exact le_of_lt (lt_of_not_le hc)
      · exact hx y hy2

/-- The sort of the script leaves the entries sorted by `num`. -/
theorem sortE_pairwise (l : List Entry) :
    List.Pairwise (fun a b => a.num ≤ b.num) (sortE l) := by
  induction l with
  | nil => simp [sortE]
  | cons x xs ih => exact insertE_pairwise ih

/-- Inserting an entry is, up to the entries of any one number, the same
as putting it in front: insertion never crosses an entry of equal `num`. -/
theorem insertE_filter (k : Int) (e : Entry) (l : List Entry) :
    (insertE e l).filter (fun x => x.num == k)
      = ((e :: l).filter (fun x => x.num == k)) := by
  induction l with
  | nil => rfl
  | cons x xs ih =>
    unfold insertE
    by_cases hc : e.num ≤ x.num
    · rw [if_pos hc]
    · rw [if_neg hc]
      by_cases hx : x.num = k
      · have he : ¬ e.num = k := by
          intro hek
          exact hc (le_of_eq (hek.trans hx.symm))
        simp [List.filter_cons, hx, he] at ih ⊢
        exact ih
      · by_cases he : e.num = k
        · simp [List.filter_cons, hx, he] at ih ⊢
          exact ih
        · simp [List.filter_cons, hx, he] at ih ⊢
          exact ih

/-- Stability of the sort: the entries of any one number appear in the
sorted list exactly as they appeared in the input. -/
theorem sortE_filter (l : List Entry) (k : Int) :
    (sortE l).filter (fun x => x.num == k) = l.filter (fun x => x.num == k) := by
  induction l with
  | nil => rfl
  | cons x xs ih =>
    have h1 : sortE (x :: xs) = insertE x (sortE xs) := rfl
    rw [h1, insertE_filter k x (sortE xs)]
    by_cases hx : x.num = k
    · simp [List.filter_cons, hx, ih]
    · simp [List.filter_cons, hx, ih]

/-- Sorting an already sorted entry list changes nothing. -/
theorem sortE_of_pairwise {l : List Entry}
    (h : List.Pairwise (fun a b => a.num ≤ b.num) l) : sortE l = l := by
  induction l with
  | nil => rfl
  | cons x xs ih =>
    have h1 : sortE (x :: xs) = insertE x (sortE xs) := rfl
    rcases List.pairwise_cons.mp h with ⟨hx, hxs⟩
    rw [h1, ih hxs]
    cases xs with
    | nil => rfl
    | cons y ys =>
      unfold insertE
      rw [if_pos (hx y (List.mem_cons_self y ys))]

/-- C6: `parse` returns the entries sorted ascending by number; the sort
is stable (the entries of any one number keep their original relative
order); and sorting is idempotent. -/
theorem parseSortedStableIdempotent :
    (∀ (raw : String) (es : List Entry), parse raw = Except.ok es →
        List.Pairwise (fun a b => a.num ≤ b.num) es)
    ∧ (∀ (l : List Entry) (k : Int),
        (sortE l).filter (fun x => x.num == k) = l.filter (fun x => x.num == k))
    ∧ (∀ l : List Entry, sortE (sortE l) = sortE l) := by
  refine ⟨?_, sortE_filter, fun l => sortE_of_pairwise (sortE_pairwise l)⟩
  intro raw es h
  unfold parse at h
  cases hp : parseAll (pySplitlines raw) with
  | error e => rw [hp] at h; cases h
  | ok es0 =>
    rw [hp] at h
    cases h
    exact sortE_pairwise es0

/-- C6, witness at a concrete run. -/
theorem parseSortedStableIdempotentWitness :
    List.Pairwise (fun a b => a.num ≤ b.num)
      [Entry.mk 1 "EPERM" "Operation not permitted",
       Entry.mk 2 "ENOENT" "No such file or directory"] :=
  parseSortedStableIdempotent.1 exInput
    [Entry.mk 1 "EPERM" "Operation not permitted",
     Entry.mk 2 "ENOENT" "No such file or directory"] (by decide)

/-- The last element of a list is a member. -/
theorem getLast?_memE {l : List Entry} {a : Entry}
    (h : l.getLast? = some a) : a ∈ l := by
  induction l with
  | nil => cases h
  | cons x xs ih =>
    cases xs with
    | nil =>
      simp only [List.getLast?_singleton, Option.some.injEq] at h
      simp [h]
    | cons y ys =>
      rw [List.getLast?_cons_cons] at h
      exact List.mem_cons_of_mem x (ih h)

/-- A slot no entry is numbered with renders as the placeholder. -/
theorem slotLine_of_not_mem {es : List Entry} {i : Nat}
    (h : ∀ e ∈ es, e.num ≠ (i : Int)) : slotLine es i = emptySlot i := by
  unfold slotLine
  have hf : es.find? (fun e => e.num == (i : Int)) = none :=
    List.find?_eq_none.mpr (fun x hx => by simpa using h x hx)
  rw [hf]

/-- A slot whose number matches the head entry renders that entry. -/
theorem slotLine_cons_self {e : Entry} {es : List Entry} {i : Nat}
    (h : e.num = (i : Int)) : slotLine (e :: es) i = fullSlot i e := by
  unfold slotLine
  rw [List.find?_cons_of_pos _ (by simpa using h)]

/-- A slot whose number differs from the head entry looks past it. -/
theorem slotLine_cons_of_ne {e : Entry} {es : List Entry} {i : Nat}
    (h : e.num ≠ (i : Int)) : slotLine (e :: es) i = slotLine es i := by
  unfold slotLine
  rw [List.find?_cons_of_neg _ (by simpa using h)]

/-- Unfolding of one step of the table loop. -/
theorem tableLines_cons (next : Nat) (e : Entry) (rest : List Entry) :
    tableLines next (e :: rest)
      = (List.range ((e.num - (next : Int)).toNat)).map (fun i => emptySlot (next + i))
        ++ fullSlot (next + (e.num - (next : Int)).toNat) e
          :: tableLines (next + (e.num - (next : Int)).toNat + 1) rest := rfl

/-- The gap lines of one step, reindexed over `range'`. -/
theorem gapLines_eq_range' (next g : Nat) :
    (List.range g).map (fun i => emptySlot (next + i))
      = (List.range' next g).map (fun i => emptySlot i) := by
  rw [List.range'_eq_map_range, List.map_map]
  rfl

/-- The heart of the table invariant: starting the loop at `next` on a
strictly increasing entry list lying at or above `next` produces exactly
the slots `next, next+1, ..., lastNum`, each rendered by `slotLine`. -/
theorem tableLines_eq_slots (es : List Entry) (eL : Entry) :
    ∀ next : Nat,
    List.Pairwise (fun a b => a.num < b.num) es →
    (∀ e ∈ es, (next : Int) ≤ e.num) →
    es.getLast? = some eL →
    tableLines next es
      = (List.range' next (eL.num.toNat + 1 - next)).map (slotLine es) := by
  induction es with
  | nil => intro next _ _ hL; cases hL
  | cons e rest ih =>
    intro next hlt hge hL
    have h0 : (next : Int) ≤ e.num := hge e (List.mem_cons_self e rest)
    have h0n : (0 : Int) ≤ e.num := le_trans (Int.natCast_nonneg next) h0
    have hmi : (e.num.toNat : Int) = e.num := Int.toNat_of_nonneg h0n
    have hg : (e.num - (next : Int)).toNat = e.num.toNat - next := by omega
    have hnm : next ≤ e.num.toNat := by omega
    have hidx : next + (e.num.toNat - next) = e.num.toNat := by omega
    rw [tableLines_cons, hg, hidx, gapLines_eq_range']
    cases rest with
    | nil =>
      have heL : eL = e := by
        simp only [List.getLast?_singleton, Option.some.injEq] at hL
        exact hL.symm
      rw [heL]
      have hcount : e.num.toNat + 1 - next = (e.num.toNat - next) + 1 := by omega
      rw [hcount, List.range'_concat, List.map_append]
      have hpiece1 : (List.range' next (e.num.toNat - next)).map (slotLine [e])
          = (List.range' next (e.num.toNat - next)).map (fun i => emptySlot i) := by
        refine List.map_congr_left ?_
        intro i hi
        rcases List.mem_range'_1.mp hi with ⟨hi1, hi2⟩
        have hne : e.num ≠ (i : Int) := by omega
        rw [slotLine_cons_of_ne hne]
        rfl
      have hpiece2 : slotLine [e] (next + 1 * (e.num.toNat - next)) = fullSlot e.num.toNat e := by
        have h1 : next + 1 * (e.num.toNat - next) = e.num.toNat := by omega
        rw [h1]
        exact slotLine_cons_self hmi.symm
      rw [hpiece1, List.map_singleton, hpiece2]
      simp [tableLines]
    | cons e2 rest2 =>
      have hL2 : (e2 :: rest2).getLast? = some eL := by
        rw [List.getLast?_cons_cons] at hL
        exact hL
      rcases List.pairwise_cons.mp hlt with ⟨hx, hrest⟩
      have heL : e.num < eL.num := hx eL (getLast?_memE hL2)
      have hL0 : (0 : Int) ≤ eL.num := le_of_lt (lt_of_le_of_lt h0n heL)
      have hLi : (eL.num.toNat : Int) = eL.num := Int.toNat_of_nonneg hL0
      have hmL : e.num.toNat < eL.num.toNat := by omega
      have hge2 : ∀ y ∈ e2 :: rest2, ((e.num.toNat + 1 : Nat) : Int) ≤ y.num := by
        intro y hy
        have := hx y hy
        omega
      have hih := ih (e.num.toNat + 1) hrest hge2 hL2
      have hcount : eL.num.toNat + 1 - next
          = (eL.num.toNat + 1 - e.num.toNat) + (e.num.toNat - next) := by omega
      rw [hcount, ← List.range'_append]
      have hmid : next + 1 * (e.num.toNat - next) = e.num.toNat := by omega
      rw [hmid]
      have hcount2 : eL.num.toNat + 1 - e.num.toNat = (eL.num.toNat - e.num.toNat) + 1 := by omega
      rw [hcount2, List.range'_succ, List.map_append, List.map_cons]
      have hcount3 : eL.num.toNat + 1 - (e.num.toNat + 1) = eL.num.toNat - e.num.toNat := by omega
      rw [hcount3] at hih
      rw [hih]
      have hpiece1 : (List.range' next (e.num.toNat - next)).map (slotLine (e :: e2 :: rest2))
          = (List.range' next (e.num.toNat - next)).map (fun i => emptySlot i) := by
        refine List.map_congr_left ?_
        intro i hi
        rcases List.mem_range'_1.mp hi with ⟨hi1, hi2⟩
        have hne : e.num ≠ (i : Int) := by omega
        rw [slotLine_cons_of_ne hne]
        refine slotLine_of_not_mem ?_
        intro y hy
        have hy2 := hx y hy
        omega
      have hpiece2 : slotLine (e :: e2 :: rest2) e.num.toNat = fullSlot e.num.toNat e :=
        slotLine_cons_self hmi.symm
      have hpiece3 : (List.range' (e.num.toNat + 1) (eL.num.toNat - e.num.toNat)).map
            (slotLine (e :: e2 :: rest2))
          = (List.range' (e.num.toNat + 1) (eL.num.toNat - e.num.toNat)).map
            (slotLine (e2 :: rest2)) := by
        refine List.map_congr_left ?_
        intro i hi
        rcases List.mem_range'_1.mp hi with ⟨hi1, hi2⟩
        have hne : e.num ≠ (i : Int) := by omega
        exact slotLine_cons_of_ne hne
      rw [hpiece1, hpiece2, hpiece3]

/-- C2: on a strictly increasing, nonnegative entry list, one pass of the
table loop emits the slots 0 through the last entry number, in order,
exactly once each: slot `i` carries the entry numbered `i` when there is
one and the placeholder otherwise, and the pass has lastNum + 1 lines. -/
theorem tableCoversEverySlot (es : List Entry) (eL : Entry)
    (hlt : List.Pairwise (fun a b => a.num < b.num) es)
    (hnn : ∀ e ∈ es, 0 ≤ e.num)
    (hL : es.getLast? = some eL) :
    tableLines 0 es = (List.range (eL.num.toNat + 1)).map (slotLine es)
    ∧ (tableLines 0 es).length = eL.num.toNat + 1 := by
  have h := tableLines_eq_slots es eL 0 hlt (fun e he => by simpa using hnn e he) hL
  simp only [Nat.sub_zero] at h
  refine ⟨?_, ?_⟩
  · rw [h, List.range_eq_range']
  · rw [h]
    simp

/-- C2, witness at the concrete two-entry list. -/
theorem tableCoversEverySlotWitness :
    tableLines 0 [Entry.mk 1 "EPERM" "Operation not permitted",
                  Entry.mk 2 "ENOENT" "No such file or directory"]
      = (List.range 3).map (slotLine [Entry.mk 1 "EPERM" "Operation not permitted",
                                      Entry.mk 2 "ENOENT" "No such file or directory"])
    ∧ (tableLines 0 [Entry.mk 1 "EPERM" "Operation not permitted",
                     Entry.mk 2 "ENOENT" "No such file or directory"]).length = 3 :=
  tableCoversEverySlot _ (Entry.mk 2 "ENOENT" "No such file or directory")
    (by decide) (by decide) (by decide)

/-- C7: every line of the table is a placeholder `e` initializer or a
populated `e` initializer for one of the entries, each annotated with its
zero-padded four-digit slot index; on the example input the table pass is
exactly the placeholder for slot 0 followed by the two populated slots. -/
theorem slotLineFormat :
    (∀ (next : Nat) (es : List Entry) (line : String), line ∈ tableLines next es →
        ∃ i : Nat, line = emptySlot i ∨ ∃ e, e ∈ es ∧ line = fullSlot i e)
    ∧ mainModel (RunOutcome.completed 0 exInput) ["errnos.py", "table"]
        = Except.ok (exTable ++ exTable) := by
  constructor
  · intro next es
    induction es generalizing next with
    | nil => intro line h; cases h
    | cons e rest ih =>
      intro line h
      rw [tableLines_cons] at h
      rcases List.mem_append.mp h with hgap | hrest2
      · rcases List.mem_map.mp hgap with ⟨i, _, rfl⟩
        exact ⟨next + i, Or.inl rfl⟩
      · rcases List.mem_cons.mp hrest2 with rfl | htail
        · exact ⟨next + (e.num - (next : Int)).toNat,
            Or.inr ⟨e, List.mem_cons_self e rest, rfl⟩⟩
        · rcases ih _ _ htail with ⟨i, hi | ⟨e2, he2, hline⟩⟩
          · exact ⟨i, Or.inl hi⟩
          · exact ⟨i, Or.inr ⟨e2, List.mem_cons_of_mem e he2, hline⟩⟩
  · decide

/-- C7, witness: the placeholder line of slot 0 is one of the lines of a
concrete table and has the stated shape. -/
theorem slotLineFormatWitness :
    ∃ i : Nat, emptySlot 0 = emptySlot i
      ∨ ∃ e, e ∈ [Entry.mk 1 "EPERM" "x"] ∧ emptySlot 0 = fullSlot i e :=
  slotLineFormat.1 0 [Entry.mk 1 "EPERM" "x"] (emptySlot 0) (by decide)

/-- `split` always yields at least one piece. -/
theorem splitOnChar_ne_nil (sep : Char) (l : List Char) : splitOnChar sep l ≠ [] := by
  induction l with
  | nil => simp [splitOnChar]
  | cons c cs ih =>
    unfold splitOnChar
    by_cases h : c = sep
    · simp [h]
    · rw [if_neg h]
      cases hs : splitOnChar sep cs with
      | nil => exact absurd hs ih
      | cons p ps => simp

/-- A text without the separator is one single piece. -/
theorem splitOnChar_nosep {l : List Char} {sep : Char} (h : ∀ c ∈ l, c ≠ sep) :
    splitOnChar sep l = [l] := by
  induction l with
  | nil => rfl
  | cons c cs ih =>
    unfold splitOnChar
    rw [if_neg (h c (List.mem_cons_self c cs))]
    rw [ih (fun x hx => h x (List.mem_cons_of_mem c hx))]

/-- Unfolding of `split` at a non-separator character. -/
theorem splitOnChar_cons {sep c : Char} (cs : List Char) (h : c ≠ sep) :
    splitOnChar sep (c :: cs) = match splitOnChar sep cs with
      | p :: ps => (c :: p) :: ps
      | [] => [[c]] := by
  rw [splitOnChar.eq_2, if_neg h]

/-- Splitting at the first separator occurrence after a separator-free
head detaches exactly that head. -/
theorem splitOnChar_append_sep {a t : List Char} {sep : Char}
    (h : ∀ c ∈ a, c ≠ sep) :
    splitOnChar sep (a ++ sep :: t) = a :: splitOnChar sep t := by
  induction a with
  | nil => simp [splitOnChar]
  | cons c cs ih =>
    have hc : c ≠ sep := h c (List.mem_cons_self c cs)
    have ht := ih (fun x hx => h x (List.mem_cons_of_mem c hx))
    rw [List.cons_append, splitOnChar_cons _ hc, ht]

/-- C9, counterexample: a line whose three fields are all tab-separated is
claimed to die with a fatal error, but when its message part contains two
spaces around an integer-looking word, the single-space split finds three
pieces with an integer second piece and the line parses — into a triple
different from the one whitespace tokenization would give. -/
theorem tabSeparatedLineParses :
    parseLine "E\t1\t5 6 foo" = Except.ok ⟨6, "E\t1\t5", "foo"⟩ := by
  decide

/-- C9, amended: splitting is on the single space character only, at most
twice.  Two consecutive spaces after a space-free name always abort (the
second piece is empty, which `int` rejects), and a line containing no
space at all — for example fully tab-separated fields with a space-free
message — always aborts with too few pieces; but a tab-separated line is
not guaranteed to abort: with two or more spaces inside its message it can
parse into a different triple, as the last conjunct shows. -/
theorem singleSpaceSplitAmended :
    (∀ name rest : String, (∀ c ∈ name.data, c ≠ ' ') →
        parseLine (name ++ "  " ++ rest) = Except.error PyErr.valueError)
    ∧ (∀ line : String, (∀ c ∈ line.data, c ≠ ' ') →
        parseLine line = Except.error PyErr.valueError)
    ∧ parseLine "E\t1\t5 6 foo" = Except.ok ⟨6, "E\t1\t5", "foo"⟩ := by
  refine ⟨?_, ?_, by decide⟩
  · intro name rest h
    have hdata : (name ++ "  " ++ rest).data = name.data ++ ' ' :: ' ' :: rest.data := by
      rw [String.data_append, String.data_append]
      rw [List.append_assoc]
      rfl
    obtain ⟨p, ps, hps⟩ : ∃ p ps, splitOnChar ' ' rest.data = p :: ps := by
      cases hq : splitOnChar ' ' rest.data with
      | nil => exact absurd hq (splitOnChar_ne_nil ' ' rest.data)
      | cons p ps => exact ⟨p, ps, rfl⟩
    have hsplit : splitOnChar ' ' ((name ++ "  " ++ rest).data)
        = name.data :: [] :: p :: ps := by
      rw [hdata, splitOnChar_append_sep h]
      simp [splitOnChar, hps]
    unfold parseLine split2
    rw [hsplit]
    rfl
  · intro line h
    unfold parseLine split2
    rw [splitOnChar_nosep h]
    rfl

/-- C9, witness: a concrete double-space line aborts. -/
theorem singleSpaceSplitWitness :
    parseLine ("EPERM" ++ "  " ++ "1 msg") = Except.error PyErr.valueError :=
  singleSpaceSplitAmended.1 "EPERM" "1 msg" (by decide)
